import Mathlib

/-!
# waypoint-plugin-dataproc: the `platform` package

A shallow embedding of `platform/deploy.go`: the configuration record
`DeployConfig`, the validator `Platform.ConfigSet` and the job submitter
`Platform.deploy`, followed by the properties proved about them.

Conventions of the embedding

* Go strings are Lean `String`s.
* A Go `error` value is a `GoError` carrying its message; a nil-able `error`
  is an `Option GoError`.
* A Go `map[string]string` is the list of its entries, in the order in which
  a `range` loop happens to visit them, no key occurring twice.  A map-typed
  variable is an `Option GoMap`, `none` being the nil map.
* The process environment is a function from variable names to
  `Option String`, `none` meaning that the variable is unset.
* The remote Dataproc service and the status sink are outside the
  repository: the service is a record of functions answering each call, and
  everything `deploy` does to the outside world is recorded in a trace.
-/

namespace Platform

/-! ## Go values -/

/-- A Go `error` value, identified by its message. -/
structure GoError where
  msg : String
deriving DecidableEq

/-- The Go call `fmt.Errorf(msg)` for a format string without verbs. -/
def Errorf (msg : String) : GoError := ⟨msg⟩

/-- The Go statement `m[k] = v` on the entries of a map: overwrites the entry
of `k` when there is one, adds an entry otherwise. -/
def storeEntries : List (String × String) → String → String → List (String × String)
  | [], k, v => [(k, v)]
  | (k', v') :: rest, k, v =>
    if k' = k then (k, v) :: rest else (k', v') :: storeEntries rest k v

/-- The Go expression `m[k]` with its presence flag, on the entries of a
map: the value stored under `k`, if any. -/
def lookupEntries : List (String × String) → String → Option String
  | [], _ => none
  | (k', v') :: rest, k => if k' = k then some v' else lookupEntries rest k

/-- A Go `map[string]string` that is not nil: its entries, in the order in
which a `range` loop visits them, no key occurring twice. -/
structure GoMap where
  entries : List (String × String)
  nodup : (entries.map Prod.fst).Nodup

instance : DecidableEq GoMap := fun a b =>
  decidable_of_iff (a.entries = b.entries)
    ⟨fun h => by cases a; cases b; cases h; rfl, fun h => by rw [h]⟩

namespace GoMap

/-- The Go expression `make(map[string]string)`. -/
def empty : GoMap := ⟨[], List.nodup_nil⟩

/-- The keys of a map, in iteration order. -/
def keys (m : GoMap) : List String := m.entries.map Prod.fst

/-- The Go expression `m[k]` with its presence flag. -/
def lookup (m : GoMap) (k : String) : Option String := lookupEntries m.entries k

/-- The Go statement `m[k] = v`. -/
def store (m : GoMap) (k v : String) : GoMap :=
  ⟨storeEntries m.entries k v, by
    have h := m.nodup
    generalize m.entries = es at h
    induction es with
    | nil => simp [storeEntries]
    | cons e rest ih =>
      obtain ⟨k', v'⟩ := e
      rw [List.map_cons, List.nodup_cons] at h
      by_cases hk : k' = k
      · subst hk
        simp only [storeEntries, if_true, List.map_cons, List.nodup_cons]
        exact h
      · have hmem : ∀ es : List (String × String),
            k' ∉ es.map Prod.fst → k' ∉ (storeEntries es k v).map Prod.fst := by
          intro es
          induction es with
          | nil =>
            intro _
            simp only [storeEntries, List.map_cons, List.map_nil, List.mem_singleton]
            exact hk
          | cons e' rest' ih' =>
            obtain ⟨k'', v''⟩ := e'
            intro hnot
            rw [List.map_cons, List.mem_cons, not_or] at hnot
            by_cases hk' : k'' = k
            · subst hk'
              simp only [storeEntries, if_true, List.map_cons, List.mem_cons, not_or]
              exact ⟨hk, hnot.2⟩
            · simp only [storeEntries, hk', if_false, List.map_cons, List.mem_cons, not_or]
              exact ⟨hnot.1, ih' hnot.2⟩
        simp only [storeEntries, hk, if_false, List.map_cons, List.nodup_cons]
        exact ⟨hmem rest h.1, ih h.2⟩⟩

/-- The entries visited by `for key, value := range m`; a nil map has none. -/
def range : Option GoMap → List (String × String)
  | none => []
  | some m => m.entries

/-- The Go builtin `len(m)`; a nil map has length 0. -/
def len (m : Option GoMap) : Nat := (range m).length

end GoMap

/-- The process environment: the value of each variable that is set. -/
abbrev Env := String → Option String

/-- The Go call `os.Getenv(key)`: the value of the variable, or the empty
string when it is unset. -/
def Getenv (env : Env) (key : String) : String :=
  match env key with
  | some v => v
  | none => ""

/-! ## The configuration record -/

/-- The Go struct `DeployConfig`. -/
structure DeployConfig where
  Region : String
  ClusterName : String
  ProjectId : String
  MainClass : String
  JobUri : String
  MasterEnvVariables : Option GoMap
  DriverEnvVariables : Option GoMap
  ExecutorEnvVariables : Option GoMap
  Arguments : List String
deriving DecidableEq

/-- The dynamic values that can reach the `config interface{}` parameter of
`ConfigSet`: a pointer to a configuration record (given by the record it
points to), a nil pointer of type `*DeployConfig`, or a value of any other
dynamic type. -/
inductive ConfigValue where
  | ptr (c : DeployConfig)
  | nilPtr
  | other
deriving DecidableEq

/-- How a call of `ConfigSet` ends: it returns an `error` (possibly nil)
leaving the pointee in state `config` (`none` when the argument was not a
pointer to a record), or it panics. -/
inductive ConfigSetOutcome where
  | returned (config : Option DeployConfig) (err : Option GoError)
  | panicked
deriving DecidableEq

/-- The method `Platform.ConfigSet` (deploy.go, lines 40-57). -/
def ConfigSet (env : Env) (config : ConfigValue) : ConfigSetOutcome :=
  match config with
  | .other =>
    .returned none (some (Errorf "Expected *DeployConfig as parameter"))
  | .nilPtr => .panicked
  | .ptr c =>
    if c.Region = "" then
      .returned (some c) (some (Errorf "Region must be set to a valid directory"))
    else
      let c :=
        if c.ProjectId = "" ∧ Getenv env "GOOGLE_PROJECT_ID" ≠ "" then
          { c with ProjectId := Getenv env "GOOGLE_PROJECT_ID" }
        else c
      .returned (some c) none

/-! ## The properties map and the request -/

/-- The property prefix of the application-master role. -/
def masterPrefix : String := "spark.yarn.appMasterEnv."

/-- The property prefix of the driver role. -/
def driverPrefix : String := "spark.driverEnv."

/-- The property prefix of the executor role. -/
def executorPrefix : String := "spark.executorEnv."

/-- One of the three loops `for key, value := range m { properties[pfx + key] = value }`
(deploy.go, lines 109-122), run on the map `properties`. -/
def addEnv (pfx : String) (m : Option GoMap) (properties : GoMap) : GoMap :=
  (GoMap.range m).foldl (fun props kv => props.store (pfx ++ kv.1) kv.2) properties

/-- The properties map built by `deploy` (deploy.go, lines 107-122). -/
def buildProperties (c : DeployConfig) : GoMap :=
  let properties := GoMap.empty
  let properties := addEnv masterPrefix c.MasterEnvVariables properties
  let properties := addEnv driverPrefix c.DriverEnvVariables properties
  let properties := addEnv executorPrefix c.ExecutorEnvVariables properties
  properties

/-- The entries a role is expected to contribute to the properties map: each
key prefixed, each value unchanged (used to state what `buildProperties`
computes). -/
def prefixed (pfx : String) (es : List (String × String)) : List (String × String) :=
  es.map fun kv => (pfx ++ kv.1, kv.2)

/-- The Go struct `dataprocpb.JobPlacement`, with the field `deploy` sets. -/
structure JobPlacement where
  ClusterName : String
deriving DecidableEq

/-- The Go struct `dataprocpb.SparkJob`, with the fields `deploy` sets; the
driver is the `SparkJob_MainClass` alternative. -/
structure SparkJob where
  MainClass : String
  Properties : GoMap
  JarFileUris : List String
deriving DecidableEq

/-- The job type of a `dataprocpb.Job`; `deploy` only builds Spark jobs. -/
inductive TypeJob where
  | sparkJob (j : SparkJob)
deriving DecidableEq

/-- The Go struct `dataprocpb.Job`, with the fields `deploy` sets. -/
structure Job where
  Placement : JobPlacement
  TypeJob : TypeJob
deriving DecidableEq

/-- The Go struct `dataprocpb.SubmitJobRequest`. -/
structure SubmitJobRequest where
  ProjectId : String
  Region : String
  Job : Job
deriving DecidableEq

/-- The request built by `deploy` (deploy.go, lines 126-143). -/
def buildRequest (c : DeployConfig) : SubmitJobRequest :=
  { ProjectId := c.ProjectId
    Region := c.Region
    Job :=
      { Placement := { ClusterName := c.ClusterName }
        TypeJob := .sparkJob
          { MainClass := c.MainClass
            Properties := buildProperties c
            JarFileUris := [c.JobUri] } } }

/-! ## Regular expressions

`deploy` matches the driver-output URI with Go's `regexp` package.  The
package is modelled by a backtracking matcher: for a regular expression and
a starting point it lists every way to match, in the order of preference of
Go's leftmost-first semantics, so the head of the list is the match Go
reports. -/

/-- The regular expressions built from literal characters, `.`, concatenation,
`+`, `+?` and numbered capture groups. -/
inductive Regex where
  | lit (c : Char)
  | anyCharNotNL
  | cat (a b : Regex)
  | plus (greedy : Bool) (a : Regex)
  | capture (index : Nat) (a : Regex)
deriving DecidableEq

/-- A point reached by the matcher: the input still to be read and the text
of the capture groups closed so far, the latest first. -/
structure MatchState where
  rest : List Char
  caps : List (Nat × List Char)
deriving DecidableEq

/-- One or more iterations of `step`, at most `fuel` of them: a greedy loop
prefers one more iteration to stopping, a lazy one prefers stopping. -/
def plusLoop (step : MatchState → List MatchState) (greedy : Bool) :
    Nat → MatchState → List MatchState
  | 0, _ => []
  | fuel + 1, s =>
    (step s).flatMap fun s' =>
      if greedy then plusLoop step greedy fuel s' ++ [s']
      else s' :: plusLoop step greedy fuel s'

/-- Every way in which a regular expression matches at the start of
`s.rest`, in order of preference.  A loop is given one iteration more than
there are characters left. -/
def Regex.run : Regex → MatchState → List MatchState
  | .lit c, s =>
    match s.rest with
    | c' :: cs => if c' = c then [{ s with rest := cs }] else []
    | [] => []
  | .anyCharNotNL, s =>
    match s.rest with
    | c' :: cs => if c' = '\n' then [] else [{ s with rest := cs }]
    | [] => []
  | .cat a b, s => (Regex.run a s).flatMap (Regex.run b)
  | .plus greedy a, s => plusLoop (Regex.run a) greedy (s.rest.length + 1) s
  | .capture index a, s =>
    (Regex.run a s).map fun s' =>
      { s' with caps := (index, s.rest.take (s.rest.length - s'.rest.length)) :: s'.caps }

/-- The number of capture groups of a regular expression (the largest group
index). -/
def Regex.numSubexp : Regex → Nat
  | .lit _ => 0
  | .anyCharNotNL => 0
  | .cat a b => max (Regex.numSubexp a) (Regex.numSubexp b)
  | .plus _ a => Regex.numSubexp a
  | .capture index a => max index (Regex.numSubexp a)

/-- The text of capture group `i` in a finished match, empty when the group
took no part in it. -/
def groupText (caps : List (Nat × List Char)) (i : Nat) : String :=
  match caps.lookup i with
  | some cs => String.mk cs
  | none => ""

/-- The submatches of the preferred match of `re` starting exactly at the
beginning of `cs`, if there is one: the matched text, then the text of each
group. -/
def submatchAt (re : Regex) (cs : List Char) : Option (List String) :=
  match Regex.run re ⟨cs, []⟩ with
  | s' :: _ =>
    some (String.mk (cs.take (cs.length - s'.rest.length)) ::
      (List.range (Regex.numSubexp re)).map fun i => groupText s'.caps (i + 1))
  | [] => none

/-- The submatches of the leftmost match of `re` in `cs`; the empty list
(Go's nil slice) when there is none. -/
def findSubmatch (re : Regex) : List Char → List String
  | [] => (submatchAt re []).getD []
  | c :: cs =>
    match submatchAt re (c :: cs) with
    | some ms => ms
    | none => findSubmatch re cs

/-- The Go method `(*Regexp).FindStringSubmatch`. -/
def Regex.FindStringSubmatch (re : Regex) (s : String) : List String :=
  findSubmatch re s.data

/-- Whether `re` has a match starting at some position of `cs`. -/
def matchesSomewhere (re : Regex) : List Char → Bool
  | [] => !(Regex.run re ⟨[], []⟩).isEmpty
  | c :: cs => !(Regex.run re ⟨c :: cs, []⟩).isEmpty || matchesSomewhere re cs

/-- The Go method `(*Regexp).MatchString`: whether the string contains a
match of the regular expression. -/
def Regex.MatchString (re : Regex) (s : String) : Bool :=
  matchesSomewhere re s.data

/-- The regular expression `regexp.MustCompile("gs://(.+?)/(.+)")` of
deploy.go, line 154: the literal `gs://`, group 1 `.+?`, the literal `/`,
group 2 `.+`. -/
def driverOutputRegexp : Regex :=
  .cat (.lit 'g') <| .cat (.lit 's') <| .cat (.lit ':') <| .cat (.lit '/') <| .cat (.lit '/') <|
  .cat (.capture 1 (.plus false .anyCharNotNL)) <|
  .cat (.lit '/') (.capture 2 (.plus true .anyCharNotNL))

/-! ## The job submitter -/

/-- The Go struct `Deployment`, the result of a deployment; the code fills
in none of its fields. -/
structure Deployment where
deriving DecidableEq

/-- The handle returned by `SubmitJobAsOperation`, identified by the name of
the remote operation. -/
structure SubmitJobOperation where
  name : String
deriving DecidableEq

/-- The `*dataprocpb.Job` that a finished operation yields; `deploy` reads
its driver-output URI only. -/
structure JobResponse where
  DriverOutputResourceUri : String
deriving DecidableEq

/-- The behaviour of the remote service during one run of `deploy`: the
error of constructing a client for an endpoint (`none` when it succeeds),
the answer to a submitted request, and the answer to waiting on an
operation (also when the context is cancelled). -/
structure Remote where
  newClient : String → Option GoError
  submit : SubmitJobRequest → Except GoError SubmitJobOperation
  wait : SubmitJobOperation → Except GoError JobResponse

/-- The styles of a status step that `deploy` uses. -/
inductive Style where
  | InfoStyle
  | SuccessStyle
deriving DecidableEq

/-- What `deploy` does to the outside world, one event per call. -/
inductive Event where
  | status
  | update (msg : String)
  | step (style : Style) (msg : String)
  | newJobControllerClient (endpoint : String)
  | fatalf (msg : String)
  | submitJobAsOperation (req : SubmitJobRequest)
  | wait (op : SubmitJobOperation)
  | close
deriving DecidableEq

/-- How a run of `deploy` ends: it returns a `*Deployment` (`none` being nil)
and an `error`, or `log.Fatalf` ends the process. -/
inductive DeployOutcome where
  | returned (deployment : Option Deployment) (err : Option GoError)
  | exited
deriving DecidableEq

/-- A run of `deploy`: the events in order, and how it ended. -/
structure DeployRun where
  trace : List Event
  outcome : DeployOutcome
deriving DecidableEq

/-- The method `Platform.deploy` (deploy.go, lines 91-164) for a platform
whose configuration is `config`.  The deferred `u.Close()` runs when the
method returns, and not when `log.Fatalf` ends the process. -/
def deploy (remote : Remote) (config : DeployConfig) : DeployRun :=
  let t : List Event :=
    [ .status,
      .update "Deploy application",
      .step .InfoStyle "Deploying Spark Job",
      .step .InfoStyle ("Region: " ++ config.Region),
      .step .InfoStyle ("Cluster Name: " ++ config.ClusterName) ]
  let endpoint := config.Region ++ "-dataproc.googleapis.com:443"
  let t := t ++ [.newJobControllerClient endpoint]
  match remote.newClient endpoint with
  | some err =>
    ⟨t ++ [.fatalf ("error creating the job client: " ++ err.msg ++ "\n")], .exited⟩
  | none =>
    let submitJobReq := buildRequest config
    let t := t ++ [.submitJobAsOperation submitJobReq]
    match remote.submit submitJobReq with
    | .error err => ⟨t ++ [.close], .returned none (some err)⟩
    | .ok submitJobOp =>
      let t := t ++ [.wait submitJobOp]
      match remote.wait submitJobOp with
      | .error err => ⟨t ++ [.close], .returned none (some err)⟩
      | .ok submitJobResp =>
        -- the variable `err` holds the nil error of the wait that succeeded
        let err : Option GoError := none
        let re := driverOutputRegexp
        let matches_ := re.FindStringSubmatch submitJobResp.DriverOutputResourceUri
        if matches_.length < 3 then
          ⟨t ++ [.close], .returned none err⟩
        else
          ⟨t ++ [.step .SuccessStyle "Spark Job Deployed", .close],
            .returned (some {}) none⟩

/-- The number of events of a trace that satisfy `p`. -/
def countEvents (p : Event → Bool) (t : List Event) : Nat := t.countP p

/-- Whether an event is a call of `SubmitJobAsOperation`. -/
def Event.isSubmit : Event → Bool
  | .submitJobAsOperation _ => true
  | _ => false

/-- Whether an event is a call of `Wait`. -/
def Event.isWait : Event → Bool
  | .wait _ => true
  | _ => false

/-! ## Concrete configurations and services -/

/-- The configuration of the end-to-end scenario of the specification. -/
def scenarioConfig : DeployConfig :=
  { Region := "us-central1"
    ClusterName := "c1"
    ProjectId := "p1"
    MainClass := "com.example.Main"
    JobUri := "gs://bucket/job.jar"
    MasterEnvVariables := some ⟨[("FOO", "bar")], by simp⟩
    DriverEnvVariables := none
    ExecutorEnvVariables := none
    Arguments := [] }

/-- A configuration with neither a region nor a project. -/
def noRegionConfig : DeployConfig :=
  { scenarioConfig with Region := "", ProjectId := "" }

/-- A remote service that accepts the request and completes at once with the
driver-output URI `uri`. -/
def completingRemote (uri : String) : Remote :=
  { newClient := fun _ => none
    submit := fun _ => .ok ⟨"operation-1"⟩
    wait := fun _ => .ok ⟨uri⟩ }

/-- A remote service that rejects every request with the error `e`. -/
def rejectingRemote (e : GoError) : Remote :=
  { newClient := fun _ => none
    submit := fun _ => .error e
    wait := fun _ => .ok ⟨"gs://out-bucket/out.txt"⟩ }

/-- A remote service that accepts the request and whose operation fails with
the error `e`. -/
def failingWaitRemote (e : GoError) : Remote :=
  { newClient := fun _ => none
    submit := fun _ => .ok ⟨"operation-1"⟩
    wait := fun _ => .error e }

/-! ## Lemmas on strings and maps -/

lemma append_left_cancel (p a b : String) (h : p ++ a = p ++ b) : a = b := by
  have h' := congrArg String.data h
  rw [String.data_append, String.data_append] at h'
  exact String.ext (List.append_cancel_left h')

lemma master_ne_driver (a b : String) : masterPrefix ++ a ≠ driverPrefix ++ b := by
  intro h
  have h' := congrArg String.data h
  rw [String.data_append, String.data_append] at h'
  simp [masterPrefix, driverPrefix] at h'

lemma master_ne_executor (a b : String) : masterPrefix ++ a ≠ executorPrefix ++ b := by
  intro h
  have h' := congrArg String.data h
  rw [String.data_append, String.data_append] at h'
  simp [masterPrefix, executorPrefix] at h'

lemma driver_ne_executor (a b : String) : driverPrefix ++ a ≠ executorPrefix ++ b := by
  intro h
  have h' := congrArg String.data h
  rw [String.data_append, String.data_append] at h'
  simp [driverPrefix, executorPrefix] at h'

lemma storeEntries_of_not_mem (es : List (String × String)) (k v : String)
    (h : k ∉ es.map Prod.fst) : storeEntries es k v = es ++ [(k, v)] := by
  induction es with
  | nil => rfl
  | cons e rest ih =>
    obtain ⟨k', v'⟩ := e
    rw [List.map_cons, List.mem_cons, not_or] at h
    have hk : ¬ k' = k := fun hk => h.1 hk.symm
    simp only [storeEntries, hk, if_false, List.cons_append, ih h.2]

lemma mem_keys_prefixed (pfx : String) (es : List (String × String)) (key : String) :
    key ∈ (prefixed pfx es).map Prod.fst ↔ ∃ k ∈ es.map Prod.fst, key = pfx ++ k := by
  simp only [prefixed, List.map_map, List.mem_map, Function.comp]
  constructor
  · rintro ⟨kv, hkv, rfl⟩
    exact ⟨kv.1, ⟨kv, hkv, rfl⟩, rfl⟩
  · rintro ⟨k, ⟨kv, hkv, rfl⟩, rfl⟩
    exact ⟨kv, hkv, rfl⟩

lemma foldl_store_entries (pfx : String) (es : List (String × String)) :
    ∀ props : GoMap, (es.map Prod.fst).Nodup →
      (∀ k ∈ es.map Prod.fst, pfx ++ k ∉ props.keys) →
      (es.foldl (fun props kv => props.store (pfx ++ kv.1) kv.2) props).entries
        = props.entries ++ prefixed pfx es := by
  induction es with
  | nil => intro props _ _; simp [prefixed]
  | cons e rest ih =>
    obtain ⟨k, v⟩ := e
    intro props hnd hfresh
    rw [List.map_cons, List.nodup_cons] at hnd
    have hk : pfx ++ k ∉ props.entries.map Prod.fst := hfresh k (by simp)
    have hstore : (props.store (pfx ++ k) v).entries = props.entries ++ [(pfx ++ k, v)] :=
      storeEntries_of_not_mem _ _ _ hk
    rw [List.foldl_cons, ih (props.store (pfx ++ k) v) hnd.2, hstore]
    · simp [prefixed]
    · intro k' hk' hmem
      rw [GoMap.keys, hstore, List.map_append, List.mem_append] at hmem
      rcases hmem with hmem | hmem
      · exact hfresh k' (List.mem_cons_of_mem _ hk') hmem
      · simp only [List.map_cons, List.map_nil, List.mem_singleton] at hmem
        have := append_left_cancel _ _ _ hmem
        exact hnd.1 (this ▸ hk')

lemma range_nodup (m : Option GoMap) : ((GoMap.range m).map Prod.fst).Nodup := by
  cases m with
  | none => exact List.nodup_nil
  | some m => exact m.nodup

/-- The properties map holds the entries of the three roles one after the
other, each key prefixed by its role. -/
lemma buildProperties_entries (c : DeployConfig) :
    (buildProperties c).entries
      = prefixed masterPrefix (GoMap.range c.MasterEnvVariables)
        ++ prefixed driverPrefix (GoMap.range c.DriverEnvVariables)
        ++ prefixed executorPrefix (GoMap.range c.ExecutorEnvVariables) := by
  have hM : (addEnv masterPrefix c.MasterEnvVariables GoMap.empty).entries
      = prefixed masterPrefix (GoMap.range c.MasterEnvVariables) := by
    rw [addEnv, foldl_store_entries _ _ _ (range_nodup _)]
    · rfl
    · intro k _ hmem
      simp [GoMap.keys, GoMap.empty] at hmem
  have hD : (addEnv driverPrefix c.DriverEnvVariables
      (addEnv masterPrefix c.MasterEnvVariables GoMap.empty)).entries
      = prefixed masterPrefix (GoMap.range c.MasterEnvVariables)
        ++ prefixed driverPrefix (GoMap.range c.DriverEnvVariables) := by
    rw [addEnv, foldl_store_entries _ _ _ (range_nodup _), hM]
    intro k _ hmem
    rw [GoMap.keys, hM, mem_keys_prefixed] at hmem
    obtain ⟨k', _, h⟩ := hmem
    exact master_ne_driver _ _ h.symm
  rw [buildProperties, addEnv, foldl_store_entries _ _ _ (range_nodup _), hD]
  intro k _ hmem
  rw [GoMap.keys, hD, List.map_append, List.mem_append, mem_keys_prefixed,
    mem_keys_prefixed] at hmem
  rcases hmem with ⟨k', _, h⟩ | ⟨k', _, h⟩
  · exact master_ne_executor _ _ h.symm
  · exact driver_ne_executor _ _ h.symm

lemma lookupEntries_of_mem (es : List (String × String)) (k v : String)
    (hnd : (es.map Prod.fst).Nodup) (h : (k, v) ∈ es) : lookupEntries es k = some v := by
  induction es with
  | nil => cases h
  | cons e rest ih =>
    obtain ⟨k', v'⟩ := e
    rw [List.map_cons, List.nodup_cons] at hnd
    rcases List.mem_cons.1 h with heq | hmem
    · cases heq
      simp [lookupEntries]
    · have hk : ¬ k' = k := by
        rintro rfl
        exact hnd.1 (List.mem_map.2 ⟨(k', v), hmem, rfl⟩)
      simp only [lookupEntries, hk, if_false]
      exact ih hnd.2 hmem

lemma mem_keys_buildProperties (c : DeployConfig) (key : String) :
    key ∈ (buildProperties c).keys ↔
      (∃ k ∈ (GoMap.range c.MasterEnvVariables).map Prod.fst, key = masterPrefix ++ k)
      ∨ (∃ k ∈ (GoMap.range c.DriverEnvVariables).map Prod.fst, key = driverPrefix ++ k)
      ∨ (∃ k ∈ (GoMap.range c.ExecutorEnvVariables).map Prod.fst, key = executorPrefix ++ k) := by
  rw [GoMap.keys, buildProperties_entries, List.map_append, List.map_append, List.mem_append,
    List.mem_append, mem_keys_prefixed, mem_keys_prefixed, mem_keys_prefixed, or_assoc]

/-! ## The configuration validator -/

/-- C1: for a pointer to any configuration record and any process
environment, `ConfigSet` returns a non-nil error exactly when `Region` is the
empty string, and returns a nil error exactly when `Region` is not empty,
whatever `ClusterName`, `MainClass` and `JobUri` hold. -/
theorem ConfigSet_error_iff_region_empty (env : Env) (c : DeployConfig) :
    ((∃ cfg e, ConfigSet env (.ptr c) = .returned cfg (some e)) ↔ c.Region = "")
    ∧ ((∃ cfg, ConfigSet env (.ptr c) = .returned cfg none) ↔ c.Region ≠ "") := by
  by_cases h : c.Region = ""
  · simp [ConfigSet, h]
  · simp [ConfigSet, h]

/-- C2: with a non-empty `Region` and a non-empty `ProjectId`, `ConfigSet`
succeeds and leaves `ProjectId` (indeed the whole record) as it was, whether
`GOOGLE_PROJECT_ID` is set or not. -/
theorem ConfigSet_keeps_projectId (env : Env) (c : DeployConfig)
    (hRegion : c.Region ≠ "") (hProject : c.ProjectId ≠ "") :
    ∃ c', ConfigSet env (.ptr c) = .returned (some c') none
      ∧ c'.ProjectId = c.ProjectId ∧ c' = c := by
  refine ⟨c, ?_, rfl, rfl⟩
  simp [ConfigSet, hRegion, hProject]

theorem ConfigSet_keeps_projectId_witness :
    ∃ c', ConfigSet (fun _ => some "other") (.ptr scenarioConfig) = .returned (some c') none
      ∧ c'.ProjectId = scenarioConfig.ProjectId ∧ c' = scenarioConfig :=
  ConfigSet_keeps_projectId (fun _ => some "other") scenarioConfig (by decide) (by decide)

/-- C3, as stated, fails: with an empty `Region` the call returns the region
error before it looks at the environment, so an empty `ProjectId` stays
empty although `GOOGLE_PROJECT_ID` is set to `my-project`. -/
theorem ConfigSet_default_project_counterexample :
    noRegionConfig.ProjectId = ""
    ∧ (fun _ => some "my-project" : Env) "GOOGLE_PROJECT_ID" = some "my-project"
    ∧ ConfigSet (fun _ => some "my-project") (.ptr noRegionConfig)
        = .returned (some noRegionConfig)
            (some (Errorf "Region must be set to a valid directory"))
    ∧ noRegionConfig.ProjectId ≠ "my-project" := by
  decide

/-- C3, amended: with a non-empty `Region`, an empty `ProjectId` and
`GOOGLE_PROJECT_ID` set to `V`, `ConfigSet` succeeds and the record then has
`ProjectId = V`, nothing else changed. -/
theorem ConfigSet_default_project (env : Env) (c : DeployConfig) (V : String)
    (hRegion : c.Region ≠ "") (hProject : c.ProjectId = "")
    (hEnv : env "GOOGLE_PROJECT_ID" = some V) :
    ConfigSet env (.ptr c) = .returned (some { c with ProjectId := V }) none := by
  have hget : Getenv env "GOOGLE_PROJECT_ID" = V := by simp [Getenv, hEnv]
  by_cases hV : V = ""
  · subst hV
    have : ({ c with ProjectId := "" } : DeployConfig) = c := by
      cases c; simp_all
    simp [ConfigSet, hRegion, hget, this]
  · simp [ConfigSet, hRegion, hProject, hget, hV]

theorem ConfigSet_default_project_witness :
    ConfigSet (fun _ => some "my-project")
        (.ptr { scenarioConfig with ProjectId := "" })
      = .returned (some { scenarioConfig with ProjectId := "my-project" }) none :=
  ConfigSet_default_project (fun _ => some "my-project")
    { scenarioConfig with ProjectId := "" } "my-project" (by decide) rfl rfl

/-! ## The properties map -/

/-- C4: in the properties map built by `deploy`, every entry `(k, v)` of
`MasterEnvVariables` is found under `"spark.yarn.appMasterEnv." ++ k`, every
entry of `DriverEnvVariables` under `"spark.driverEnv." ++ k` and every entry
of `ExecutorEnvVariables` under `"spark.executorEnv." ++ k`, each with the
value `v` unchanged; when the three maps have no entries (empty or nil) the
properties map is empty. -/
theorem buildProperties_lookup (c : DeployConfig) :
    (∀ k v, (k, v) ∈ GoMap.range c.MasterEnvVariables →
        (buildProperties c).lookup ("spark.yarn.appMasterEnv." ++ k) = some v)
    ∧ (∀ k v, (k, v) ∈ GoMap.range c.DriverEnvVariables →
        (buildProperties c).lookup ("spark.driverEnv." ++ k) = some v)
    ∧ (∀ k v, (k, v) ∈ GoMap.range c.ExecutorEnvVariables →
        (buildProperties c).lookup ("spark.executorEnv." ++ k) = some v)
    ∧ (GoMap.len c.MasterEnvVariables = 0 → GoMap.len c.DriverEnvVariables = 0 →
        GoMap.len c.ExecutorEnvVariables = 0 → (buildProperties c).entries = []) := by
  have key : ∀ kv, kv ∈ (buildProperties c).entries →
      (buildProperties c).lookup kv.1 = some kv.2 := fun kv h =>
    lookupEntries_of_mem _ _ _ (buildProperties c).nodup h
  refine ⟨fun k v h => key (masterPrefix ++ k, v) ?_, fun k v h => key (driverPrefix ++ k, v) ?_,
    fun k v h => key (executorPrefix ++ k, v) ?_, ?_⟩
  · rw [buildProperties_entries]
    exact List.mem_append_left _ (List.mem_append_left _ (List.mem_map.2 ⟨(k, v), h, rfl⟩))
  · rw [buildProperties_entries]
    exact List.mem_append_left _ (List.mem_append_right _ (List.mem_map.2 ⟨(k, v), h, rfl⟩))
  · rw [buildProperties_entries]
    exact List.mem_append_right _ (List.mem_map.2 ⟨(k, v), h, rfl⟩)
  · intro hM hD hE
    rw [GoMap.len, List.length_eq_zero] at hM hD hE
    rw [buildProperties_entries, hM, hD, hE]
    rfl

theorem buildProperties_lookup_witness :
    (buildProperties scenarioConfig).lookup ("spark.yarn.appMasterEnv." ++ "FOO") = some "bar" :=
  (buildProperties_lookup scenarioConfig).1 "FOO" "bar" (by decide)

/-- C5: the properties map has one entry per input entry: its length is the
sum of the lengths of the three maps, and a key `prefix ++ k` with the prefix
of a role is present in it exactly when `k` is a key of that role's own
map, also when the roles share key names. -/
theorem buildProperties_one_entry_per_input (c : DeployConfig) :
    GoMap.len (buildProperties c)
      = GoMap.len c.MasterEnvVariables + GoMap.len c.DriverEnvVariables
        + GoMap.len c.ExecutorEnvVariables
    ∧ (∀ k, "spark.yarn.appMasterEnv." ++ k ∈ (buildProperties c).keys
        ↔ k ∈ (GoMap.range c.MasterEnvVariables).map Prod.fst)
    ∧ (∀ k, "spark.driverEnv." ++ k ∈ (buildProperties c).keys
        ↔ k ∈ (GoMap.range c.DriverEnvVariables).map Prod.fst)
    ∧ (∀ k, "spark.executorEnv." ++ k ∈ (buildProperties c).keys
        ↔ k ∈ (GoMap.range c.ExecutorEnvVariables).map Prod.fst) := by
  refine ⟨?_, fun k => ?_, fun k => ?_, fun k => ?_⟩
  · have h : GoMap.len (buildProperties c) = (buildProperties c).entries.length := rfl
    rw [h, buildProperties_entries]
    simp only [GoMap.len, prefixed, List.length_append, List.length_map]
  · rw [mem_keys_buildProperties]
    constructor
    · rintro (⟨k', hk', h⟩ | ⟨k', _, h⟩ | ⟨k', _, h⟩)
      · exact append_left_cancel masterPrefix _ _ h ▸ hk'
      · exact absurd h (master_ne_driver _ _)
      · exact absurd h (master_ne_executor _ _)
    · exact fun h => Or.inl ⟨k, h, rfl⟩
  · rw [mem_keys_buildProperties]
    constructor
    · rintro (⟨k', _, h⟩ | ⟨k', hk', h⟩ | ⟨k', _, h⟩)
      · exact absurd h.symm (master_ne_driver _ _)
      · exact append_left_cancel driverPrefix _ _ h ▸ hk'
      · exact absurd h (driver_ne_executor _ _)
    · exact fun h => Or.inr (Or.inl ⟨k, h, rfl⟩)
  · rw [mem_keys_buildProperties]
    constructor
    · rintro (⟨k', _, h⟩ | ⟨k', _, h⟩ | ⟨k', hk', h⟩)
      · exact absurd h.symm (master_ne_executor _ _)
      · exact absurd h.symm (driver_ne_executor _ _)
      · exact append_left_cancel executorPrefix _ _ h ▸ hk'
    · exact fun h => Or.inr (Or.inr ⟨k, h, rfl⟩)

/-! ## Matching the driver-output URI -/

lemma run_anyChar_cons (c : Char) (cs : List Char) (caps : List (Nat × List Char))
    (hc : c ≠ '\n') : Regex.run .anyCharNotNL ⟨c :: cs, caps⟩ = [⟨cs, caps⟩] := by
  simp [Regex.run, hc]

lemma run_anyChar_nil (caps : List (Nat × List Char)) :
    Regex.run .anyCharNotNL ⟨[], caps⟩ = [] := rfl

lemma run_lit_cons (c : Char) (cs : List Char) (caps : List (Nat × List Char)) :
    Regex.run (.lit c) ⟨c :: cs, caps⟩ = [⟨cs, caps⟩] := by
  simp [Regex.run]

lemma run_lit_ne (c x : Char) (cs : List Char) (caps : List (Nat × List Char)) (h : x ≠ c) :
    Regex.run (.lit c) ⟨x :: cs, caps⟩ = [] := by
  simp [Regex.run, h]

lemma run_cat (a b : Regex) (s : MatchState) :
    Regex.run (.cat a b) s = (Regex.run a s).flatMap (Regex.run b) := rfl

lemma run_plus (greedy : Bool) (a : Regex) (s : MatchState) :
    Regex.run (.plus greedy a) s = plusLoop (Regex.run a) greedy (s.rest.length + 1) s := rfl

lemma run_capture (index : Nat) (a : Regex) (s : MatchState) :
    Regex.run (.capture index a) s = (Regex.run a s).map fun s' =>
      { s' with caps := (index, s.rest.take (s.rest.length - s'.rest.length)) :: s'.caps } := rfl

lemma plusLoop_succ (step : MatchState → List MatchState) (greedy : Bool) (fuel : Nat)
    (s : MatchState) :
    plusLoop step greedy (fuel + 1) s = (step s).flatMap fun s' =>
      if greedy then plusLoop step greedy fuel s' ++ [s']
      else s' :: plusLoop step greedy fuel s' := rfl

lemma plusLoop_anyChar_nil (greedy : Bool) (fuel : Nat) (caps : List (Nat × List Char)) :
    plusLoop (Regex.run .anyCharNotNL) greedy fuel ⟨[], caps⟩ = [] := by
  cases fuel with
  | zero => rfl
  | succ f => rw [plusLoop_succ, run_anyChar_nil, List.flatMap_nil]

/-- The fuel given to a loop over `.` is never used up: any amount above the
number of characters left yields the same matches. -/
lemma plusLoop_anyChar_fuel (greedy : Bool) :
    ∀ (cs : List Char) (caps : List (Nat × List Char)) (fuel fuel' : Nat),
      cs.length + 1 ≤ fuel → cs.length + 1 ≤ fuel' →
      plusLoop (Regex.run .anyCharNotNL) greedy fuel ⟨cs, caps⟩
        = plusLoop (Regex.run .anyCharNotNL) greedy fuel' ⟨cs, caps⟩ := by
  intro cs
  induction cs with
  | nil => intro caps fuel fuel' _ _; rw [plusLoop_anyChar_nil, plusLoop_anyChar_nil]
  | cons c cs ih =>
    intro caps fuel fuel' h h'
    obtain ⟨f, rfl⟩ : ∃ f, fuel = f + 1 := ⟨fuel - 1, by omega⟩
    obtain ⟨f', rfl⟩ : ∃ f', fuel' = f' + 1 := ⟨fuel' - 1, by omega⟩
    have hf : cs.length + 1 ≤ f := by simpa using h
    have hf' : cs.length + 1 ≤ f' := by simpa using h'
    rw [plusLoop_succ, plusLoop_succ]
    by_cases hc : c = '\n'
    · subst hc
      rfl
    · rw [run_anyChar_cons _ _ _ hc, List.flatMap_singleton, List.flatMap_singleton,
        ih caps f f' hf hf']

/-- A lazy `.+?` in front of the text `c :: B ++ R`, where no character of
`c :: B` is a newline and the continuation `K` fails at every character of
`B`: the preferred match stops right in front of `R`. -/
lemma lazy_loop_head (K : MatchState → List MatchState) (R : List Char)
    (caps : List (Nat × List Char)) :
    ∀ (B : List Char) (c : Char) (fuel : Nat), B.length + 1 ≤ fuel → c ≠ '\n' →
      (∀ x ∈ B, x ≠ '\n') → (∀ x ∈ B, ∀ T, K ⟨x :: T, caps⟩ = []) →
      ∃ more, (plusLoop (Regex.run .anyCharNotNL) false fuel ⟨c :: (B ++ R), caps⟩).flatMap K
        = K ⟨R, caps⟩ ++ more := by
  intro B
  induction B with
  | nil =>
    intro c fuel hfuel hc _ _
    obtain ⟨f, rfl⟩ : ∃ f, fuel = f + 1 := ⟨fuel - 1, by omega⟩
    refine ⟨(plusLoop (Regex.run .anyCharNotNL) false f ⟨R, caps⟩).flatMap K, ?_⟩
    rw [plusLoop_succ, List.nil_append, run_anyChar_cons _ _ _ hc]
    simp
  | cons x B ih =>
    intro c fuel hfuel hc hB hK
    obtain ⟨f, rfl⟩ : ∃ f, fuel = f + 1 := ⟨fuel - 1, by omega⟩
    have hf : B.length + 1 ≤ f := by simpa using hfuel
    obtain ⟨more, hmore⟩ := ih x f hf (hB x (by simp))
      (fun y hy => hB y (List.mem_cons_of_mem _ hy))
      (fun y hy => hK y (List.mem_cons_of_mem _ hy))
    refine ⟨more, ?_⟩
    have hx : K ⟨x :: (B ++ R), caps⟩ = [] := hK x (by simp) _
    rw [plusLoop_succ, List.cons_append, run_anyChar_cons _ _ _ hc]
    simp only [List.flatMap_cons, List.flatMap_nil, List.append_nil, Bool.false_eq_true,
      if_false, hx, List.nil_append]
    exact hmore

/-- A greedy `.+` in front of a non-empty text without newline: the
preferred match takes all of it. -/
lemma greedy_loop_head (caps : List (Nat × List Char)) :
    ∀ (P : List Char) (c : Char) (fuel : Nat), P.length + 1 ≤ fuel → c ≠ '\n' →
      (∀ x ∈ P, x ≠ '\n') →
      ∃ more, plusLoop (Regex.run .anyCharNotNL) true fuel ⟨c :: P, caps⟩ = ⟨[], caps⟩ :: more := by
  intro P
  induction P with
  | nil =>
    intro c fuel hfuel hc _
    obtain ⟨f, rfl⟩ : ∃ f, fuel = f + 1 := ⟨fuel - 1, by omega⟩
    refine ⟨[], ?_⟩
    rw [plusLoop_succ, run_anyChar_cons _ _ _ hc]
    simp [plusLoop_anyChar_nil]
  | cons x P ih =>
    intro c fuel hfuel hc hP
    obtain ⟨f, rfl⟩ : ∃ f, fuel = f + 1 := ⟨fuel - 1, by omega⟩
    have hf : P.length + 1 ≤ f := by simpa using hfuel
    obtain ⟨more, hmore⟩ := ih x f hf (hP x (by simp))
      (fun y hy => hP y (List.mem_cons_of_mem _ hy))
    refine ⟨more ++ [⟨x :: P, caps⟩], ?_⟩
    rw [plusLoop_succ, run_anyChar_cons _ _ _ hc]
    simp [hmore]

/-- The part `/(.+)` of the pattern in front of `/P`: group 2 takes `P`. -/
lemma run_tail (P : List Char) (caps : List (Nat × List Char)) (hP : P ≠ [])
    (hP1 : ∀ x ∈ P, x ≠ '\n') :
    ∃ more, Regex.run (.cat (.lit '/') (.capture 2 (.plus true .anyCharNotNL)))
        ⟨'/' :: P, caps⟩ = ⟨[], (2, P) :: caps⟩ :: more := by
  obtain ⟨d, P', rfl⟩ := List.exists_cons_of_ne_nil hP
  obtain ⟨m, hm⟩ := greedy_loop_head caps P' d ((d :: P').length + 1) (by simp)
    (hP1 d (by simp)) (fun y hy => hP1 y (List.mem_cons_of_mem _ hy))
  refine ⟨m.map fun s' => { s' with caps := (2, (d :: P').take
    ((d :: P').length - s'.rest.length)) :: s'.caps }, ?_⟩
  rw [run_cat, run_lit_cons, List.flatMap_singleton, run_capture, run_plus, hm, List.map_cons]
  simp only [List.length_nil, Nat.sub_zero, List.take_length]

/-- The part `(.+?)/(.+)` of the pattern in front of `B/P`: group 1 takes
`B`, group 2 takes `P`. -/
lemma run_groups (B P : List Char) (hB : B ≠ []) (hB1 : ∀ x ∈ B, x ≠ '/')
    (hB2 : ∀ x ∈ B, x ≠ '\n') (hP : P ≠ []) (hP1 : ∀ x ∈ P, x ≠ '\n') :
    ∃ more, Regex.run (.cat (.capture 1 (.plus false .anyCharNotNL))
          (.cat (.lit '/') (.capture 2 (.plus true .anyCharNotNL))))
        ⟨B ++ '/' :: P, []⟩ = ⟨[], [(2, P), (1, B)]⟩ :: more := by
  obtain ⟨c, B', rfl⟩ := List.exists_cons_of_ne_nil hB
  have hK : ∀ x ∈ B', ∀ T,
      (Regex.run (.cat (.lit '/') (.capture 2 (.plus true .anyCharNotNL))) ∘
        fun s' : MatchState => { s' with caps := (1, (c :: B' ++ '/' :: P).take
          ((c :: B' ++ '/' :: P).length - s'.rest.length)) :: s'.caps }) ⟨x :: T, []⟩ = [] := by
    intro x hx T
    have hne : x ≠ '/' := hB1 x (List.mem_cons_of_mem _ hx)
    simp only [Function.comp, run_cat, run_lit_ne _ _ _ _ hne, List.flatMap_nil]
  obtain ⟨m1, hm1⟩ := lazy_loop_head _ ('/' :: P) [] B' c
    ((c :: B' ++ '/' :: P).length + 1) (by simp; omega) (hB2 c (by simp))
    (fun y hy => hB2 y (List.mem_cons_of_mem _ hy)) hK
  have htake : (c :: B' ++ '/' :: P).take
      ((c :: B' ++ '/' :: P).length - ('/' :: P).length) = c :: B' := by
    have : (c :: B' ++ '/' :: P).length - ('/' :: P).length = (c :: B').length := by
      simp only [List.length_cons, List.length_append]
      omega
    rw [this]
    exact List.take_left' rfl
  obtain ⟨m2, hm2⟩ := run_tail P [(1, c :: B')] hP hP1
  have key : Regex.run (.cat (.capture 1 (.plus false .anyCharNotNL))
        (.cat (.lit '/') (.capture 2 (.plus true .anyCharNotNL)))) ⟨c :: B' ++ '/' :: P, []⟩
      = (plusLoop (Regex.run .anyCharNotNL) false ((c :: B' ++ '/' :: P).length + 1)
          ⟨c :: (B' ++ '/' :: P), []⟩).flatMap
        (Regex.run (.cat (.lit '/') (.capture 2 (.plus true .anyCharNotNL))) ∘
          fun s' : MatchState => { s' with caps := (1, (c :: B' ++ '/' :: P).take
            ((c :: B' ++ '/' :: P).length - s'.rest.length)) :: s'.caps }) := by
    rw [run_cat, run_capture, run_plus, List.flatMap_map]
    rfl
  refine ⟨m2 ++ m1, ?_⟩
  rw [key, hm1]
  simp only [Function.comp]
  rw [htake, hm2]
  rfl

/-- The preferred match of the pattern at the start of `gs://B/P`. -/
lemma run_driverOutputRegexp (B P : List Char) (hB : B ≠ []) (hB1 : ∀ x ∈ B, x ≠ '/')
    (hB2 : ∀ x ∈ B, x ≠ '\n') (hP : P ≠ []) (hP1 : ∀ x ∈ P, x ≠ '\n') :
    ∃ more, Regex.run driverOutputRegexp
        ⟨'g' :: 's' :: ':' :: '/' :: '/' :: (B ++ '/' :: P), []⟩
      = ⟨[], [(2, P), (1, B)]⟩ :: more := by
  obtain ⟨m, hm⟩ := run_groups B P hB hB1 hB2 hP hP1
  refine ⟨m, ?_⟩
  rw [driverOutputRegexp, run_cat, run_lit_cons, List.flatMap_singleton,
    run_cat, run_lit_cons, List.flatMap_singleton,
    run_cat, run_lit_cons, List.flatMap_singleton,
    run_cat, run_lit_cons, List.flatMap_singleton,
    run_cat, run_lit_cons, List.flatMap_singleton, hm]

/-- C9: for a driver-output URI `"gs://" ++ b ++ "/" ++ p` whose bucket `b`
is non-empty and holds neither `/` nor a newline and whose path `p` is
non-empty and holds no newline, `FindStringSubmatch` with the pattern of
`deploy` yields three elements: the whole URI, the bucket `b` and the path
`p`. -/
theorem FindStringSubmatch_bucket_path (b p : String) (hb : b ≠ "")
    (hbSlash : '/' ∉ b.data) (hbNewline : '\n' ∉ b.data) (hp : p ≠ "")
    (hpNewline : '\n' ∉ p.data) :
    driverOutputRegexp.FindStringSubmatch ("gs://" ++ b ++ "/" ++ p)
      = ["gs://" ++ b ++ "/" ++ p, b, p] := by
  have hdata : ("gs://" ++ b ++ "/" ++ p).data
      = 'g' :: 's' :: ':' :: '/' :: '/' :: (b.data ++ '/' :: p.data) := by
    simp [String.data_append]
  have hbne : b.data ≠ [] := fun h => hb (String.ext h)
  have hpne : p.data ≠ [] := fun h => hp (String.ext h)
  obtain ⟨more, hrun⟩ := run_driverOutputRegexp b.data p.data hbne
    (fun x hx h => hbSlash (h ▸ hx)) (fun x hx h => hbNewline (h ▸ hx)) hpne
    (fun x hx h => hpNewline (h ▸ hx))
  have hnum : Regex.numSubexp driverOutputRegexp = 2 := by decide
  rw [Regex.FindStringSubmatch, hdata, findSubmatch, submatchAt, hrun]
  simp only [hnum, List.length_nil, Nat.sub_zero, List.take_length]
  rw [← hdata]
  rfl

theorem FindStringSubmatch_bucket_path_witness :
    driverOutputRegexp.FindStringSubmatch ("gs://" ++ "my-bucket" ++ "/" ++ "logs/output.txt")
      = ["gs://" ++ "my-bucket" ++ "/" ++ "logs/output.txt", "my-bucket", "logs/output.txt"] :=
  FindStringSubmatch_bucket_path "my-bucket" "logs/output.txt" (by decide) (by decide)
    (by decide) (by decide) (by decide)

lemma submatchAt_length (re : Regex) (cs : List Char) (ms : List String)
    (h : submatchAt re cs = some ms) : ms.length = Regex.numSubexp re + 1 := by
  unfold submatchAt at h
  split at h
  · cases h
    simp
  · cases h

lemma submatchAt_eq_none_iff (re : Regex) (cs : List Char) :
    submatchAt re cs = none ↔ (Regex.run re ⟨cs, []⟩).isEmpty = true := by
  unfold submatchAt
  split <;> simp_all

/-- The result of `FindStringSubmatch` has one element for the match and one
for each group when the string holds a match, and is empty otherwise. -/
lemma findSubmatch_length (re : Regex) (cs : List Char) :
    (findSubmatch re cs).length
      = if matchesSomewhere re cs = true then Regex.numSubexp re + 1 else 0 := by
  induction cs with
  | nil =>
    rw [findSubmatch, matchesSomewhere]
    cases h : submatchAt re [] with
    | none =>
      have := (submatchAt_eq_none_iff re []).1 h
      simp [this]
    | some ms =>
      have hne : ¬ (Regex.run re ⟨[], []⟩).isEmpty = true := fun hh =>
        by rw [(submatchAt_eq_none_iff re []).2 hh] at h; cases h
      simp [hne, submatchAt_length re [] ms h]
  | cons c cs ih =>
    rw [findSubmatch, matchesSomewhere]
    cases h : submatchAt re (c :: cs) with
    | none =>
      have := (submatchAt_eq_none_iff re (c :: cs)).1 h
      simp [this, ih]
    | some ms =>
      have hne : ¬ (Regex.run re ⟨c :: cs, []⟩).isEmpty = true := fun hh =>
        by rw [(submatchAt_eq_none_iff re (c :: cs)).2 hh] at h; cases h
      simp [hne, submatchAt_length re (c :: cs) ms h]

lemma matches_length_lt_iff (uri : String) :
    (driverOutputRegexp.FindStringSubmatch uri).length < 3
      ↔ driverOutputRegexp.MatchString uri = false := by
  have hnum : Regex.numSubexp driverOutputRegexp = 2 := by decide
  rw [Regex.FindStringSubmatch, Regex.MatchString, findSubmatch_length, hnum]
  cases matchesSomewhere driverOutputRegexp uri.data <;> simp

/-! ## The job submitter -/

/-- The run of `deploy` when the client is constructed and the submission is
rejected. -/
lemma deploy_submit_error (remote : Remote) (config : DeployConfig) (e : GoError)
    (hClient : remote.newClient (config.Region ++ "-dataproc.googleapis.com:443") = none)
    (hSubmit : remote.submit (buildRequest config) = .error e) :
    deploy remote config =
      ⟨[ .status, .update "Deploy application", .step .InfoStyle "Deploying Spark Job",
         .step .InfoStyle ("Region: " ++ config.Region),
         .step .InfoStyle ("Cluster Name: " ++ config.ClusterName),
         .newJobControllerClient (config.Region ++ "-dataproc.googleapis.com:443"),
         .submitJobAsOperation (buildRequest config), .close ],
       .returned none (some e)⟩ := by
  simp [deploy, hClient, hSubmit]

/-- The run of `deploy` when the request is accepted and the wait fails. -/
lemma deploy_wait_error (remote : Remote) (config : DeployConfig) (op : SubmitJobOperation)
    (e : GoError)
    (hClient : remote.newClient (config.Region ++ "-dataproc.googleapis.com:443") = none)
    (hSubmit : remote.submit (buildRequest config) = .ok op)
    (hWait : remote.wait op = .error e) :
    deploy remote config =
      ⟨[ .status, .update "Deploy application", .step .InfoStyle "Deploying Spark Job",
         .step .InfoStyle ("Region: " ++ config.Region),
         .step .InfoStyle ("Cluster Name: " ++ config.ClusterName),
         .newJobControllerClient (config.Region ++ "-dataproc.googleapis.com:443"),
         .submitJobAsOperation (buildRequest config), .wait op, .close ],
       .returned none (some e)⟩ := by
  simp [deploy, hClient, hSubmit, hWait]

/-- The run of `deploy` when the wait succeeds and the driver-output URI
holds no match of the pattern: a nil deployment with a nil error. -/
lemma deploy_no_match (remote : Remote) (config : DeployConfig) (op : SubmitJobOperation)
    (resp : JobResponse)
    (hClient : remote.newClient (config.Region ++ "-dataproc.googleapis.com:443") = none)
    (hSubmit : remote.submit (buildRequest config) = .ok op)
    (hWait : remote.wait op = .ok resp)
    (hMatch : driverOutputRegexp.MatchString resp.DriverOutputResourceUri = false) :
    deploy remote config =
      ⟨[ .status, .update "Deploy application", .step .InfoStyle "Deploying Spark Job",
         .step .InfoStyle ("Region: " ++ config.Region),
         .step .InfoStyle ("Cluster Name: " ++ config.ClusterName),
         .newJobControllerClient (config.Region ++ "-dataproc.googleapis.com:443"),
         .submitJobAsOperation (buildRequest config), .wait op, .close ],
       .returned none none⟩ := by
  have h := (matches_length_lt_iff resp.DriverOutputResourceUri).2 hMatch
  simp [deploy, hClient, hSubmit, hWait, h]

/-- The run of `deploy` when the wait succeeds and the driver-output URI
holds a match of the pattern. -/
lemma deploy_match (remote : Remote) (config : DeployConfig) (op : SubmitJobOperation)
    (resp : JobResponse)
    (hClient : remote.newClient (config.Region ++ "-dataproc.googleapis.com:443") = none)
    (hSubmit : remote.submit (buildRequest config) = .ok op)
    (hWait : remote.wait op = .ok resp)
    (hMatch : driverOutputRegexp.MatchString resp.DriverOutputResourceUri = true) :
    deploy remote config =
      ⟨[ .status, .update "Deploy application", .step .InfoStyle "Deploying Spark Job",
         .step .InfoStyle ("Region: " ++ config.Region),
         .step .InfoStyle ("Cluster Name: " ++ config.ClusterName),
         .newJobControllerClient (config.Region ++ "-dataproc.googleapis.com:443"),
         .submitJobAsOperation (buildRequest config), .wait op,
         .step .SuccessStyle "Spark Job Deployed", .close ],
       .returned (some {}) none⟩ := by
  have h : ¬ (driverOutputRegexp.FindStringSubmatch resp.DriverOutputResourceUri).length < 3 :=
    fun hlt => by
      rw [(matches_length_lt_iff resp.DriverOutputResourceUri).1 hlt] at hMatch
      cases hMatch
  simp only [deploy, hClient, hSubmit, hWait, h, if_false]
  simp

/-- A run of `deploy` whose client is constructed submits the request
`buildRequest config`, once. -/
lemma deploy_submits_request (remote : Remote) (config : DeployConfig)
    (hClient : remote.newClient (config.Region ++ "-dataproc.googleapis.com:443") = none) :
    Event.submitJobAsOperation (buildRequest config) ∈ (deploy remote config).trace
    ∧ countEvents Event.isSubmit (deploy remote config).trace = 1 := by
  cases hSubmit : remote.submit (buildRequest config) with
  | error e =>
    rw [deploy_submit_error remote config e hClient hSubmit]
    exact ⟨by simp, rfl⟩
  | ok op =>
    cases hWait : remote.wait op with
    | error e =>
      rw [deploy_wait_error remote config op e hClient hSubmit hWait]
      exact ⟨by simp, rfl⟩
    | ok resp =>
      cases hMatch : driverOutputRegexp.MatchString resp.DriverOutputResourceUri with
      | false =>
        rw [deploy_no_match remote config op resp hClient hSubmit hWait hMatch]
        exact ⟨by simp, rfl⟩
      | true =>
        rw [deploy_match remote config op resp hClient hSubmit hWait hMatch]
        exact ⟨by simp, rfl⟩

/-- Every request that a run of `deploy` submits is `buildRequest config`. -/
lemma deploy_submitted_eq (remote : Remote) (config : DeployConfig) (req : SubmitJobRequest)
    (h : Event.submitJobAsOperation req ∈ (deploy remote config).trace) :
    req = buildRequest config := by
  simp only [deploy] at h
  split at h
  · simp at h
  · split at h
    · simpa using h
    · split at h
      · simpa using h
      · split at h <;> simpa using h

/-- C6: every run of `deploy` whose client is constructed submits exactly one
request, and that request takes `ProjectId` and `Region` from the
configuration, places the job on `ClusterName`, and is a Spark job with main
class `MainClass`, the computed properties map and the one-element list
`[JobUri]`; no run submits any other request; and a configuration that
differs only in `Arguments` builds and submits the same request. -/
theorem buildRequest_fields (c : DeployConfig) :
    (∀ remote : Remote,
      remote.newClient (c.Region ++ "-dataproc.googleapis.com:443") = none →
      Event.submitJobAsOperation
          { ProjectId := c.ProjectId
            Region := c.Region
            Job :=
              { Placement := { ClusterName := c.ClusterName }
                TypeJob := .sparkJob
                  { MainClass := c.MainClass
                    Properties := buildProperties c
                    JarFileUris := [c.JobUri] } } }
        ∈ (deploy remote c).trace
      ∧ countEvents Event.isSubmit (deploy remote c).trace = 1)
    ∧ (buildRequest c).ProjectId = c.ProjectId
    ∧ (buildRequest c).Region = c.Region
    ∧ (buildRequest c).Job.Placement.ClusterName = c.ClusterName
    ∧ (buildRequest c).Job.TypeJob = .sparkJob
        { MainClass := c.MainClass
          Properties := buildProperties c
          JarFileUris := [c.JobUri] }
    ∧ (∀ remote req, Event.submitJobAsOperation req ∈ (deploy remote c).trace →
        req = buildRequest c)
    ∧ (∀ args, buildRequest { c with Arguments := args } = buildRequest c)
    ∧ (∀ (remote : Remote) args,
        remote.newClient (c.Region ++ "-dataproc.googleapis.com:443") = none →
        Event.submitJobAsOperation (buildRequest c)
          ∈ (deploy remote { c with Arguments := args }).trace) := by
  refine ⟨fun remote hClient => deploy_submits_request remote c hClient, rfl, rfl, rfl, rfl,
    fun remote req h => deploy_submitted_eq remote c req h, fun _ => rfl,
    fun remote args hClient => ?_⟩
  exact (deploy_submits_request remote { c with Arguments := args } hClient).1

theorem buildRequest_fields_witness :
    Event.submitJobAsOperation
        { ProjectId := "p1"
          Region := "us-central1"
          Job :=
            { Placement := { ClusterName := "c1" }
              TypeJob := .sparkJob
                { MainClass := "com.example.Main"
                  Properties := buildProperties scenarioConfig
                  JarFileUris := ["gs://bucket/job.jar"] } } }
      ∈ (deploy (rejectingRemote ⟨"permission denied"⟩) scenarioConfig).trace
    ∧ countEvents Event.isSubmit
        (deploy (rejectingRemote ⟨"permission denied"⟩) scenarioConfig).trace = 1 :=
  (buildRequest_fields scenarioConfig).1 (rejectingRemote ⟨"permission denied"⟩) rfl

/-- C7, on the code: with submission and wait successful and the
driver-output URI `out.txt`, which lacks the `gs://` prefix and holds no match
of the pattern, `deploy` returns a nil deployment together with a nil error,
not a parse error. -/
theorem deploy_parse_failure_nil_error :
    driverOutputRegexp.FindStringSubmatch "out.txt" = []
    ∧ (deploy (completingRemote "out.txt") scenarioConfig).outcome = .returned none none := by
  decide

/-- C8: in a run of `deploy` whose client is constructed, if the submit call
returns the error `e` then `deploy` returns a nil deployment with exactly `e`,
without ever waiting; if the submit call succeeds and the wait returns the
error `e` then `deploy` returns a nil deployment with exactly `e`; in both
cases the trace holds exactly one submit call. -/
theorem deploy_propagates_errors (remote : Remote) (config : DeployConfig)
    (hClient : remote.newClient (config.Region ++ "-dataproc.googleapis.com:443") = none) :
    (∀ e, remote.submit (buildRequest config) = .error e →
      (deploy remote config).outcome = .returned none (some e)
      ∧ countEvents Event.isWait (deploy remote config).trace = 0
      ∧ countEvents Event.isSubmit (deploy remote config).trace = 1)
    ∧ (∀ op e, remote.submit (buildRequest config) = .ok op → remote.wait op = .error e →
      (deploy remote config).outcome = .returned none (some e)
      ∧ countEvents Event.isSubmit (deploy remote config).trace = 1) := by
  constructor
  · intro e hSubmit
    rw [deploy_submit_error remote config e hClient hSubmit]
    exact ⟨rfl, rfl, rfl⟩
  · intro op e hSubmit hWait
    rw [deploy_wait_error remote config op e hClient hSubmit hWait]
    exact ⟨rfl, rfl⟩

theorem deploy_propagates_errors_witness :
    ((deploy (rejectingRemote ⟨"permission denied"⟩) scenarioConfig).outcome
        = .returned none (some ⟨"permission denied"⟩)
      ∧ countEvents Event.isWait
          (deploy (rejectingRemote ⟨"permission denied"⟩) scenarioConfig).trace = 0
      ∧ countEvents Event.isSubmit
          (deploy (rejectingRemote ⟨"permission denied"⟩) scenarioConfig).trace = 1)
    ∧ ((deploy (failingWaitRemote ⟨"context canceled"⟩) scenarioConfig).outcome
        = .returned none (some ⟨"context canceled"⟩)
      ∧ countEvents Event.isSubmit
          (deploy (failingWaitRemote ⟨"context canceled"⟩) scenarioConfig).trace = 1) :=
  ⟨(deploy_propagates_errors (rejectingRemote ⟨"permission denied"⟩) scenarioConfig rfl).1
      ⟨"permission denied"⟩ rfl,
    (deploy_propagates_errors (failingWaitRemote ⟨"context canceled"⟩) scenarioConfig rfl).2
      ⟨"operation-1"⟩ ⟨"context canceled"⟩ rfl rfl⟩

/-- C10: in a run of `deploy` whose client is constructed, a non-nil
deployment with a nil error is returned exactly when the submit call
succeeds, the wait succeeds and the driver-output URI holds a match of the
pattern, and the step `Spark Job Deployed` is emitted in exactly those runs;
the scenario of the specification, completing with `gs://out-bucket/out.txt`,
succeeds and its properties map is `{"spark.yarn.appMasterEnv.FOO": "bar"}`. -/
theorem deploy_success_iff :
    (∀ (remote : Remote) (config : DeployConfig),
      remote.newClient (config.Region ++ "-dataproc.googleapis.com:443") = none →
      ((∃ d, (deploy remote config).outcome = .returned (some d) none)
        ↔ ∃ op resp, remote.submit (buildRequest config) = .ok op
            ∧ remote.wait op = .ok resp
            ∧ driverOutputRegexp.MatchString resp.DriverOutputResourceUri = true)
      ∧ (Event.step .SuccessStyle "Spark Job Deployed" ∈ (deploy remote config).trace
        ↔ ∃ op resp, remote.submit (buildRequest config) = .ok op
            ∧ remote.wait op = .ok resp
            ∧ driverOutputRegexp.MatchString resp.DriverOutputResourceUri = true))
    ∧ (deploy (completingRemote "gs://out-bucket/out.txt") scenarioConfig).outcome
        = .returned (some {}) none
    ∧ Event.submitJobAsOperation (buildRequest scenarioConfig)
        ∈ (deploy (completingRemote "gs://out-bucket/out.txt") scenarioConfig).trace
    ∧ (buildProperties scenarioConfig).entries = [("spark.yarn.appMasterEnv.FOO", "bar")] := by
  refine ⟨fun remote config hClient => ?_, by decide, by decide, by decide⟩
  cases hSubmit : remote.submit (buildRequest config) with
  | error e =>
    rw [deploy_submit_error remote config e hClient hSubmit]
    simp
  | ok op =>
    cases hWait : remote.wait op with
    | error e =>
      rw [deploy_wait_error remote config op e hClient hSubmit hWait]
      simp [hWait]
    | ok resp =>
      cases hMatch : driverOutputRegexp.MatchString resp.DriverOutputResourceUri with
      | false =>
        rw [deploy_no_match remote config op resp hClient hSubmit hWait hMatch]
        simp [hWait, hMatch]
      | true =>
        rw [deploy_match remote config op resp hClient hSubmit hWait hMatch]
        exact ⟨⟨fun _ => ⟨op, resp, rfl, hWait, hMatch⟩, fun _ => ⟨{}, rfl⟩⟩,
          ⟨fun _ => ⟨op, resp, rfl, hWait, hMatch⟩, fun _ => by simp⟩⟩

theorem deploy_success_iff_witness :
    ((∃ d, (deploy (completingRemote "gs://out-bucket/out.txt") scenarioConfig).outcome
        = .returned (some d) none)
      ↔ ∃ op resp, (completingRemote "gs://out-bucket/out.txt").submit
            (buildRequest scenarioConfig) = .ok op
          ∧ (completingRemote "gs://out-bucket/out.txt").wait op = .ok resp
          ∧ driverOutputRegexp.MatchString resp.DriverOutputResourceUri = true)
    ∧ (Event.step .SuccessStyle "Spark Job Deployed"
        ∈ (deploy (completingRemote "gs://out-bucket/out.txt") scenarioConfig).trace
      ↔ ∃ op resp, (completingRemote "gs://out-bucket/out.txt").submit
            (buildRequest scenarioConfig) = .ok op
          ∧ (completingRemote "gs://out-bucket/out.txt").wait op = .ok resp
          ∧ driverOutputRegexp.MatchString resp.DriverOutputResourceUri = true) :=
  deploy_success_iff.1 (completingRemote "gs://out-bucket/out.txt") scenarioConfig rfl

end Platform
